import Mathlib

/-!
A shallow embedding of the MOBI/PalmDOC reader of `src/src/MobiBook.cpp`
(libebook).  Bytes are `Nat` (each value below 256 in actual use), buffers
are `List Nat`, and machine arithmetic is made explicit with `% 2^w` where
the C++ overflows or wraps.  The C++ compiles with `NDEBUG` semantics:
`assert` is a no-op, so an assert whose condition is false has no effect on
control flow and is modelled as nothing at all.  Memory accesses the C++
performs outside the bounds of its buffers (undefined behaviour) are
modelled by the distinguished outcome `Res.ub`; `Res.err` is the function
reporting failure through its return value (`-1`, `false`, `NULL`).

Loops whose termination the C++ gets from pointer arithmetic are modelled
with a structural `fuel` argument so that the definitions compute by kernel
reduction; `fuel` exhaustion yields `Res.ub` and is unreachable whenever
`fuel` exceeds the number of loop iterations (each iteration of the
PalmDOC loop consumes at least one source byte, so `src.length + 1` is
always enough and the wrappers pass exactly that).
-/

namespace MobiBook

/-- Outcome of a fallible operation of the C++ code: a normal result, an
error reported through the return value, or an out-of-bounds access
(undefined behaviour in the C++). -/
inductive Res (α : Type) where
  | ok (val : α)
  | err
  | ub
deriving DecidableEq, Repr

/-- `true` iff the outcome is a normal result. -/
def Res.isOk {α : Type} : Res α → Bool
  | .ok _ => true
  | _ => false

/-! ## PalmDOC decompression (`PalmdocUncompress`, MobiBook.cpp lines 171-225)

The destination buffer is modelled as the list of bytes written so far
(`dst`) together with the total capacity `dstLen`; the C++ `dstLeft` is
`dstLen - dst.length`. -/

/-- The back-reference copy loop `while (n > 0) { *dst++ = *dstBack++; --n; }`:
copies `n` bytes starting at destination offset `p`, byte by byte, so a copy
that overlaps the write position re-reads bytes this same copy has written. -/
def overlapCopy (dst : List Nat) (p : Nat) : Nat → List Nat
  | 0 => dst
  | n + 1 => overlapCopy (dst ++ [dst.getD p 0]) (p + 1) n

/-- The `while (src < srcEnd)` loop of `PalmdocUncompress`.  Branches, in
source order: `dstLeft == 0` check, literal run `1..8`, plain literal
`c < 128` (this is where `c == 0` lands and emits a NUL), space pair
`c >= 192`, and the two-byte back-reference escape `128..191`.  A source
exhausted in the middle of a back-reference pair is silently skipped
(`if (src < srcEnd)` guards the pair), after which the loop exits and the
byte count so far is returned.  The back-reference branch has no
release-mode checks at all: reading before the start of the buffer,
reading unwritten bytes (`back = 0`) and writing past the end are all
out-of-bounds (`Res.ub`).  The literal run reads `c` source bytes without
a bound check, out-of-bounds when fewer remain. -/
def palmdocLoop : Nat → List Nat → List Nat → Nat → Res (List Nat)
  | 0, _, _, _ => .ub
  | _ + 1, [], dst, _ => .ok dst
  | fuel + 1, c :: rest, dst, dstLen =>
    let dstLeft := dstLen - dst.length
    if dstLeft = 0 then .err
    else if 1 ≤ c ∧ c ≤ 8 then
      if dstLeft < c then .err
      else if rest.length < c then .ub
      else palmdocLoop fuel (rest.drop c) (dst ++ rest.take c) dstLen
    else if c < 128 then
      palmdocLoop fuel rest (dst ++ [c]) dstLen
    else if 192 ≤ c then
      if dstLeft < 2 then .err
      else palmdocLoop fuel rest (dst ++ [32, c ^^^ 128]) dstLen
    else
      match rest with
      | [] => .ok dst
      | b :: rest2 =>
        let w := c * 256 + b
        let back := (w >>> 3) &&& 0x7FF
        let n := (w &&& 7) + 3
        if back > dst.length then .ub
        else if back = 0 then .ub
        else if dstLeft < n then .ub
        else palmdocLoop fuel rest2 (overlapCopy dst (dst.length - back) n) dstLen

/-- `PalmdocUncompress(src, srcLen, dst, dstLen)`: on success the C++ returns
the byte count `dst - dstOrig`; the model returns the bytes written, whose
length is that count. -/
def PalmdocUncompress (src : List Nat) (dstLen : Nat) : Res (List Nat) :=
  palmdocLoop (src.length + 1) src [] dstLen

/-- Identity on escape-free byte sequences, generalised over the loop state
for the induction behind claim C2's last conjunct. -/
theorem palmdocLoop_literal_id (src : List Nat) :
    ∀ fuel dst dstLen, src.length < fuel →
      (∀ b ∈ src, 9 ≤ b ∧ b ≤ 127) →
      dst.length + src.length ≤ dstLen →
      palmdocLoop fuel src dst dstLen = .ok (dst ++ src) := by
  induction src with
  | nil =>
    intro fuel dst dstLen hf _ _
    match fuel, hf with
    | f + 1, _ => simp [palmdocLoop]
  | cons c rest ih =>
    intro fuel dst dstLen hf hrange hcap
    match fuel, hf with
    | f + 1, hf =>
      obtain ⟨hc9, hc127⟩ := hrange c (by simp)
      have h1 : ¬ (dstLen - dst.length = 0) := by
        simp only [List.length_cons] at hcap; omega
      have h2 : ¬ (1 ≤ c ∧ c ≤ 8) := by omega
      have h3 : c < 128 := by omega
      simp only [palmdocLoop, h1, if_false, h2, h3, if_true]
      rw [ih f (dst ++ [c]) dstLen (by simpa using hf)
        (fun b hb => hrange b (by simp [hb]))
        (by simp only [List.length_append, List.length_cons, List.length_nil] at hcap ⊢
            omega)]
      simp

/-- C2.  The PalmDOC decompressor follows the spec's decoding table, branch
by branch of the loop: `c = 0` emits a literal NUL; `1 ≤ c ≤ 8` copies the
next `c` source bytes; `9 ≤ c ≤ 127` emits `c` itself; `128 ≤ c ≤ 191`
combines `c` with the next source byte into `w` and copies
`n = (w &&& 7) + 3` bytes from destination offset `-back` with
`back = (w >>> 3) &&& 0x7FF`, via the overlap-tolerant byte-by-byte copy;
`192 ≤ c` emits a space then `c XOR 0x80`; and decompression of a sequence
of bytes in `0x09..0x7F` is the identity on it. -/
theorem c2_palmdoc_decode_table :
    (∀ fuel rest dst dstLen, dst.length < dstLen →
      palmdocLoop (fuel + 1) (0 :: rest) dst dstLen =
        palmdocLoop fuel rest (dst ++ [0]) dstLen) ∧
    (∀ fuel c rest dst dstLen, 1 ≤ c → c ≤ 8 →
      dst.length + c ≤ dstLen → c ≤ rest.length →
      palmdocLoop (fuel + 1) (c :: rest) dst dstLen =
        palmdocLoop fuel (rest.drop c) (dst ++ rest.take c) dstLen) ∧
    (∀ fuel c rest dst dstLen, 9 ≤ c → c ≤ 127 → dst.length < dstLen →
      palmdocLoop (fuel + 1) (c :: rest) dst dstLen =
        palmdocLoop fuel rest (dst ++ [c]) dstLen) ∧
    (∀ fuel c b rest dst dstLen back n, 128 ≤ c → c ≤ 191 →
      back = ((c * 256 + b) >>> 3) &&& 0x7FF → n = ((c * 256 + b) &&& 7) + 3 →
      1 ≤ back → back ≤ dst.length → dst.length + n ≤ dstLen →
      palmdocLoop (fuel + 1) (c :: b :: rest) dst dstLen =
        palmdocLoop fuel rest (overlapCopy dst (dst.length - back) n) dstLen) ∧
    (∀ fuel c rest dst dstLen, 192 ≤ c → dst.length + 2 ≤ dstLen →
      palmdocLoop (fuel + 1) (c :: rest) dst dstLen =
        palmdocLoop fuel rest (dst ++ [32, c ^^^ 128]) dstLen) ∧
    (∀ src dstLen, (∀ b ∈ src, 9 ≤ b ∧ b ≤ 127) → src.length ≤ dstLen →
      PalmdocUncompress src dstLen = .ok src) := by
  refine ⟨?_, ?_, ?_, ?_, ?_, ?_⟩
  · intro fuel rest dst dstLen h
    have h1 : ¬ (dstLen - dst.length = 0) := by omega
    simp [palmdocLoop, h1]
  · intro fuel c rest dst dstLen hc1 hc8 hcap hsrc
    have h1 : ¬ (dstLen - dst.length = 0) := by omega
    have h2 : ¬ (dstLen - dst.length < c) := by omega
    have h3 : ¬ (rest.length < c) := by omega
    simp [palmdocLoop, h1, hc1, hc8, h2, h3]
  · intro fuel c rest dst dstLen hc9 hc127 hcap
    have h1 : ¬ (dstLen - dst.length = 0) := by omega
    have h2 : ¬ (1 ≤ c ∧ c ≤ 8) := by omega
    have h3 : c < 128 := by omega
    simp [palmdocLoop, h1, h2, h3]
  · intro fuel c b rest dst dstLen back n hc128 hc191 hback hn hb1 hble hcap
    have h1 : ¬ (dstLen - dst.length = 0) := by omega
    have h2 : ¬ (1 ≤ c ∧ c ≤ 8) := by omega
    have h3 : ¬ (c < 128) := by omega
    have h4 : ¬ (192 ≤ c) := by omega
    simp only [palmdocLoop, h1, if_false, h2, h3, h4, ← hback, ← hn]
    have h5 : ¬ (back > dst.length) := by omega
    have h6 : ¬ (back = 0) := by omega
    have h7 : ¬ (dstLen - dst.length < n) := by omega
    simp [h5, h6, h7]
  · intro fuel c rest dst dstLen hc192 hcap
    have h1 : ¬ (dstLen - dst.length = 0) := by omega
    have h2 : ¬ (1 ≤ c ∧ c ≤ 8) := by omega
    have h3 : ¬ (c < 128) := by omega
    have h4 : ¬ (dstLen - dst.length < 2) := by omega
    simp [palmdocLoop, h1, h2, h3, hc192, h4]
  · intro src dstLen hrange hcap
    have := palmdocLoop_literal_id src (src.length + 1) [] dstLen
      (by omega) hrange (by simpa using hcap)
    simpa [PalmdocUncompress] using this

/-- Witness for C2: the literal-run, back-reference (prior output
`"ABCDEFGH"`, pair `0x80 0x08`, `back = 1`, `n = 3`) and identity conjuncts
applied at concrete inputs. -/
theorem c2_palmdoc_decode_table_witness :
    palmdocLoop 2 [128, 8] [65, 66, 67, 68, 69, 70, 71, 72] 20 =
      palmdocLoop 1 [] (overlapCopy [65, 66, 67, 68, 69, 70, 71, 72] 7 3) 20 ∧
    PalmdocUncompress [72, 105] 2 = .ok [72, 105] := by
  constructor
  · exact c2_palmdoc_decode_table.2.2.2.1 1 128 8 [] [65, 66, 67, 68, 69, 70, 71, 72] 20
      1 3 (by decide) (by decide) (by decide) (by decide)
      (by decide) (by decide) (by decide)
  · exact c2_palmdoc_decode_table.2.2.2.2.2 [72, 105] 2 (by decide) (by decide)

/-- The overlap copy writes exactly `n` bytes. -/
theorem overlapCopy_length (n : Nat) :
    ∀ dst p, (overlapCopy dst p n).length = dst.length + n := by
  induction n with
  | zero => intro dst p; simp [overlapCopy]
  | succ n ih => intro dst p; simp [overlapCopy, ih]; omega

/-- With ample destination space the PalmDOC loop never returns the error
value: every `-1` return of `PalmdocUncompress` comes from one of the three
destination-space checks, each of which needs `dstLen < dst.length + 8 * src.length`
to fire (a literal run writes at most 8 bytes per leading source byte, and
the unchecked back-reference branch cannot produce the error value at all). -/
theorem palmdocLoop_err_needs_tight_dst :
    ∀ fuel src dst dstLen, dst.length + 8 * src.length ≤ dstLen →
      palmdocLoop fuel src dst dstLen ≠ .err := by
  intro fuel
  induction fuel with
  | zero => intro src dst dstLen _; simp [palmdocLoop]
  | succ fuel ih =>
    intro src dst dstLen hcap
    match src with
    | [] => simp [palmdocLoop]
    | c :: rest =>
      simp only [List.length_cons] at hcap
      have h1 : ¬ (dstLen - dst.length = 0) := by omega
      simp only [palmdocLoop, h1, if_false]
      by_cases h2 : 1 ≤ c ∧ c ≤ 8
      · have h3 : ¬ (dstLen - dst.length < c) := by omega
        simp only [h2, if_true, h3, if_false]
        by_cases h4 : rest.length < c
        · simp [h4]
        · simp only [h4, if_false]
          apply ih
          simp only [List.length_append, List.length_take]
          have : (rest.drop c).length = rest.length - c := by simp
          rw [this]
          omega
      · simp only [h2, if_false]
        by_cases h3 : c < 128
        · simp only [h3, if_true]
          apply ih
          simp only [List.length_append, List.length_cons, List.length_nil]
          omega
        · simp only [h3, if_false]
          by_cases h4 : 192 ≤ c
          · have h5 : ¬ (dstLen - dst.length < 2) := by omega
            simp only [h4, if_true, h5, if_false]
            apply ih
            simp only [List.length_append, List.length_cons, List.length_nil]
            omega
          · simp only [h4, if_false]
            match rest with
            | [] => simp
            | b :: rest2 =>
              simp only [List.length_cons] at hcap
              by_cases h5 : ((c * 256 + b) >>> 3) &&& 0x7FF > dst.length
              · simp [h5]
              · simp only [h5, if_false]
                by_cases h6 : ((c * 256 + b) >>> 3) &&& 0x7FF = 0
                · simp [h6]
                · simp only [h6, if_false]
                  by_cases h7 : dstLen - dst.length < ((c * 256 + b) &&& 7) + 3
                  · simp [h7]
                  · simp only [h7, if_false]
                    apply ih
                    rw [overlapCopy_length]
                    have hn : (c * 256 + b) &&& 7 ≤ 7 := Nat.and_le_right
                    omega

/-- Counterexample to C5.  A source exhausted in the middle of a two-byte
back-reference pair does not return an error: `PalmdocUncompress` on the
lone escape byte `0x80` succeeds with byte count 0.  And a back-reference
pointing before the start of the destination (escape pair `0x80 0x08`,
`back = 1`, with nothing yet written) is an unchecked out-of-bounds access,
not an error return. -/
theorem c5_counterexample :
    PalmdocUncompress [128] 10 = .ok [] ∧
    PalmdocUncompress [128] 10 ≠ .err ∧
    PalmdocUncompress [128, 8] 10 = .ub := by
  refine ⟨by decide, by decide, by decide⟩

/-- C5 (amended).  The decompressor's error return arises only from its
destination-space checks: at loop entry (`dstLeft == 0`), before a literal
run `1..8` (`dstLeft < c`), and before a space expansion (`c ≥ 192`,
`dstLeft < 2`).  With destination space of at least 8 bytes per source byte
no error is possible; a source exhausted mid-pair yields the normal byte
count; and each of the three checks does return the error value when it
fires. -/
theorem c5_error_exactly_dst_checks :
    (∀ src dstLen, 8 * src.length ≤ dstLen → PalmdocUncompress src dstLen ≠ .err) ∧
    (∀ fuel c dst dstLen, 128 ≤ c → c ≤ 191 → dst.length < dstLen →
      palmdocLoop (fuel + 1) [c] dst dstLen = .ok dst) ∧
    (∀ fuel c rest dst dstLen, dstLen ≤ dst.length →
      palmdocLoop (fuel + 1) (c :: rest) dst dstLen = .err) ∧
    (∀ fuel c rest dst dstLen, 1 ≤ c → c ≤ 8 →
      0 < dstLen - dst.length → dstLen - dst.length < c →
      palmdocLoop (fuel + 1) (c :: rest) dst dstLen = .err) ∧
    (∀ fuel c rest dst dstLen, 192 ≤ c →
      0 < dstLen - dst.length → dstLen - dst.length < 2 →
      palmdocLoop (fuel + 1) (c :: rest) dst dstLen = .err) := by
  refine ⟨?_, ?_, ?_, ?_, ?_⟩
  · intro src dstLen hcap
    exact palmdocLoop_err_needs_tight_dst (src.length + 1) src [] dstLen (by simpa using hcap)
  · intro fuel c dst dstLen hc128 hc191 hcap
    have h1 : ¬ (dstLen - dst.length = 0) := by omega
    have h2 : ¬ (1 ≤ c ∧ c ≤ 8) := by omega
    have h3 : ¬ (c < 128) := by omega
    have h4 : ¬ (192 ≤ c) := by omega
    simp [palmdocLoop, h1, h2, h3, h4]
  · intro fuel c rest dst dstLen hcap
    have h1 : dstLen - dst.length = 0 := by omega
    simp [palmdocLoop, h1]
  · intro fuel c rest dst dstLen hc1 hc8 hpos hlt
    have h1 : ¬ (dstLen - dst.length = 0) := by omega
    simp [palmdocLoop, h1, hc1, hc8, hlt]
  · intro fuel c rest dst dstLen hc192 hpos hlt
    have h1 : ¬ (dstLen - dst.length = 0) := by omega
    have h2 : ¬ (1 ≤ c ∧ c ≤ 8) := by omega
    have h3 : ¬ (c < 128) := by omega
    simp [palmdocLoop, h1, h2, h3, hc192, hlt]

/-- Witness for C5's amended theorem at concrete inputs. -/
theorem c5_error_exactly_dst_checks_witness :
    PalmdocUncompress [9, 200] 100 ≠ .err ∧
    palmdocLoop 5 [150] [7, 7] 9 = .ok [7, 7] ∧
    palmdocLoop 5 [9] [7, 7] 2 = .err ∧
    palmdocLoop 5 [8, 1, 2, 3, 4, 5, 6, 7, 8] [7] 4 = .err ∧
    palmdocLoop 5 [200] [7] 2 = .err := by
  refine ⟨c5_error_exactly_dst_checks.1 [9, 200] 100 (by decide),
    c5_error_exactly_dst_checks.2.1 4 150 [7, 7] 9 (by decide) (by decide) (by decide),
    c5_error_exactly_dst_checks.2.2.1 4 9 [] [7, 7] 2 (by decide),
    c5_error_exactly_dst_checks.2.2.2.1 4 8 [1, 2, 3, 4, 5, 6, 7, 8] [7] 4
      (by decide) (by decide) (by decide) (by decide),
    c5_error_exactly_dst_checks.2.2.2.2 4 200 [] [7] 2 (by decide) (by decide) (by decide)⟩

/-! ## Trailer stripping (`ExtraDataSize`, MobiBook.cpp lines 905-930) -/

/-- `size_t` modulus: the code runs on a 64-bit host. -/
def W64 : Nat := 2 ^ 64

/-- One byte of the big-endian variable-length trailer integer:
`if (0 != (v & 0x80)) n = 0; n = (n << 7) | (v & 0x7f);` with `n : uint32`. -/
def trailerByteStep (n v : Nat) : Nat :=
  (((if v &&& 128 ≠ 0 then 0 else n) <<< 7) ||| (v &&& 127)) % 2 ^ 32

/-- The inner `j` loop of `ExtraDataSize`: reads the four bytes
`recData[newLen - 4 + j]`, `j = 0..3`, with `size_t` index arithmetic
(`newLen < 4` wraps to a huge index); any read outside the record is
`Res.ub`. -/
def readTrailerN (recData : List Nat) (newLen : Nat) : Res Nat :=
  match recData.get? ((newLen + W64 - 4) % W64), recData.get? ((newLen + W64 - 3) % W64),
      recData.get? ((newLen + W64 - 2) % W64), recData.get? ((newLen + W64 - 1) % W64) with
  | some v0, some v1, some v2, some v3 =>
    .ok (trailerByteStep (trailerByteStep (trailerByteStep (trailerByteStep 0 v0) v1) v2) v3)
  | _, _, _, _ => .ub

/-- The outer `i` loop of `ExtraDataSize`: `trailersCount` iterations, each
decoding `n` from the last four visible bytes and doing `newLen -= n` in
`size_t` arithmetic.  `assert(newLen > 4)` and `assert(newLen > n)` are
no-ops in release builds, so the subtraction is unconditional and wraps. -/
def stripTrailers (recData : List Nat) : Nat → Nat → Res Nat
  | newLen, 0 => .ok newLen
  | newLen, k + 1 =>
    match readTrailerN recData newLen with
    | .ok n => stripTrailers recData ((newLen + W64 - n) % W64) k
    | .err => .err
    | .ub => .ub

/-- `ExtraDataSize(recData, recLen, trailersCount, multibyte)`: returns
`recLen - newLen` (in `size_t` arithmetic).  The multibyte step checks
`newLen > 0` with a real `if`, but `assert(newLen >= n)` is a no-op, so
`newLen -= n` can wrap there too. -/
def ExtraDataSize (recData : List Nat) (recLen trailersCount : Nat)
    (multibyte : Bool) : Res Nat :=
  match stripTrailers recData recLen trailersCount with
  | .err => .err
  | .ub => .ub
  | .ok newLen =>
    if multibyte then
      if 0 < newLen then
        match recData.get? ((newLen + W64 - 1) % W64) with
        | none => .ub
        | some v =>
          let m := (v &&& 3) + 1
          .ok ((recLen + W64 - ((newLen + W64 - m) % W64)) % W64)
      else .ok ((recLen + W64 - newLen) % W64)
    else .ok ((recLen + W64 - newLen) % W64)

/-- Counterexample to C6.  A 5-byte record whose trailing variable-length
integer decodes to `n = 10 > 5` is stripped anyway — `assert(newLen > n)`
does not guard the subtraction — so the visible length wraps below zero and
`ExtraDataSize` reports 10 extra bytes in a 5-byte record: the caller's
`recSize -= extraSize` then underflows as well. -/
theorem c6_counterexample :
    ExtraDataSize [0, 0, 0, 0, 10] 5 1 false = .ok 10 ∧ 5 < 10 := by
  refine ⟨by decide, by decide⟩

/-- C6 (amended).  Each trailer iteration subtracts its decoded `n` and the
multibyte step subtracts `m = (lastByte &&& 3) + 1` in wrapping `size_t`
arithmetic; the bounds `newLen > n` and `newLen ≥ m` are assertions only.
When they do hold, each step decreases the visible length by exactly `n`
(resp. `m`), monotonically and never below zero, and the extra size never
exceeds the record length. -/
theorem c6_strip_steps_guarded :
    (∀ recData newLen n k, newLen < W64 →
      readTrailerN recData newLen = .ok n → n < newLen →
      stripTrailers recData newLen (k + 1) = stripTrailers recData (newLen - n) k) ∧
    (∀ recData recLen n, recLen < W64 →
      readTrailerN recData recLen = .ok n → n < recLen →
      ExtraDataSize recData recLen 1 false = .ok n ∧ n ≤ recLen) ∧
    (∀ recData recLen v, recLen < W64 → 0 < recLen →
      recData.get? (recLen - 1) = some v → (v &&& 3) + 1 ≤ recLen →
      ExtraDataSize recData recLen 0 true = .ok ((v &&& 3) + 1) ∧
        (v &&& 3) + 1 ≤ recLen) ∧
    (∀ recData recLen, ExtraDataSize recData recLen 0 false = .ok 0) := by
  have hwrap : ∀ a b : Nat, b ≤ a → a < W64 → (a + W64 - b) % W64 = a - b := by
    intro a b hba haW
    have h : a + W64 - b = W64 + (a - b) := by omega
    rw [h, Nat.add_mod_left, Nat.mod_eq_of_lt (by omega)]
  refine ⟨?_, ?_, ?_, ?_⟩
  · intro recData newLen n k hW hread hn
    simp only [stripTrailers, hread]
    rw [hwrap newLen n (by omega) hW]
  · intro recData recLen n hW hread hn
    constructor
    · simp only [ExtraDataSize, stripTrailers, hread]
      rw [hwrap recLen n (by omega) hW]
      simp only [if_false, Bool.false_eq_true]
      rw [hwrap recLen (recLen - n) (by omega) hW]
      congr 1
      omega
    · omega
  · intro recData recLen v hW hpos hget hm
    constructor
    · have hidx : (recLen + W64 - 1) % W64 = recLen - 1 := hwrap recLen 1 (by omega) hW
      have h1 : (recLen + W64 - ((v &&& 3) + 1)) % W64 = recLen - ((v &&& 3) + 1) :=
        hwrap recLen ((v &&& 3) + 1) hm hW
      have h2 : (recLen + W64 - (recLen - ((v &&& 3) + 1))) % W64 =
          recLen - (recLen - ((v &&& 3) + 1)) :=
        hwrap recLen (recLen - ((v &&& 3) + 1)) (by omega) hW
      have h3 : recLen - (recLen - ((v &&& 3) + 1)) = (v &&& 3) + 1 := by omega
      have hget2 : recData[recLen - 1]? = some v := by simpa using hget
      simp [ExtraDataSize, stripTrailers, hpos, hidx, hget2, h1, h2, h3]
    · exact hm
  · intro recData recLen
    have h : recLen + W64 - recLen = W64 := by omega
    simp [ExtraDataSize, stripTrailers, h]

/-- Witness for C6's amended theorem: a 7-byte record with one trailer of
two bytes, and a multibyte trailer of `(2 &&& 3) + 1 = 3` bytes. -/
theorem c6_strip_steps_guarded_witness :
    ExtraDataSize [1, 2, 3, 0, 0, 0, 2] 7 1 false = .ok 2 ∧
    ExtraDataSize [1, 2, 3, 4, 5, 6, 2] 7 0 true = .ok 3 ∧
    ExtraDataSize [9, 9] 2 0 false = .ok 0 := by
  refine ⟨(c6_strip_steps_guarded.2.1 [1, 2, 3, 0, 0, 0, 2] 7 2 (by norm_num [W64])
      (by decide) (by decide)).1,
    (c6_strip_steps_guarded.2.2.1 [1, 2, 3, 4, 5, 6, 2] 7 2 (by norm_num [W64])
      (by decide) (by decide) (by decide)).1,
    c6_strip_steps_guarded.2.2.2 [9, 9] 2⟩

/-! ## HUFF/CDIC decompression (`HuffDicDecompressor`, MobiBook.cpp lines 272-476)

`BitReader.h` is not among the sources; its cursor, `BitsLeft`, `Peek` and
`Eat` are modelled from the spec (§4.2).  Everything else is transcribed
from `MobiBook.cpp`. -/

/-- `ReadBeU16` (MobiBook.cpp line 310) on a byte list at index `i`;
reading outside the buffer is `Res.ub`. -/
def ReadBeU16 (buf : List Nat) (i : Nat) : Res Nat :=
  match buf.get? i, buf.get? (i + 1) with
  | some a, some b => .ok (a * 256 + b)
  | _, _ => .ub

/-- Big-endian 32-bit read with a zero default, used only where the caller
has already established that the four bytes are inside the buffer. -/
def beU32D (buf : List Nat) (i : Nat) : Nat :=
  buf.getD i 0 * 16777216 + buf.getD (i + 1) 0 * 65536 +
    buf.getD (i + 2) 0 * 256 + buf.getD (i + 3) 0

/-- Modelled from the spec: `BitReader.h` is missing from the sources.
Bit `i` of the byte slice, most-significant bit first, zero past the end. -/
def bitAt (src : List Nat) (i : Nat) : Nat :=
  (src.getD (i / 8) 0 >>> (7 - i % 8)) &&& 1

/-- Modelled from the spec: `Peek(32)` — the 32 bits at cursor `pos`,
most-significant first, zero-padded at the end of the buffer. -/
def peek32 (src : List Nat) (pos : Nat) : Nat :=
  (List.range 32).foldl (fun v k => 2 * v + bitAt src (pos + k)) 0

/-- The parsed state of `HuffDicDecompressor`: `dictsCount` is
`dicts.length` and `dictSize[d]` is `(dicts.get d).length` (`AddCdicData`
always stores the slice and its length together). -/
structure HuffState where
  cacheTable : List Nat
  baseTable : List Nat
  codeLength : Nat
  dicts : List (List Nat)
deriving Repr

/-- The `do { ... } while (baseVal > code)` scan of the base table in
`Decompress` (MobiBook.cpp lines 392-400).  `codeLen` enters as the cache
code length minus one; each pass reads `baseTable[codeLen*2]`, computes
`code` from the top `codeLen+1` bits, increments, and returns the error
value once `codeLen` exceeds 32.  On exit the accepted code is
`baseTable[1 + (codeLen-1)*2] - (bits >> (32-codeLen))` as `uint32`.
The `codeLen > 32` check bounds the iterations by 33, so fuel 34 at the
call site can never run out (`Res.ub` at 0 is unreachable). -/
def baseScan (baseTable : List Nat) (bits : Nat) : Nat → Nat → Res (Nat × Nat)
  | _, 0 => .ub
  | codeLen, fuel + 1 =>
    match baseTable.get? (codeLen * 2) with
    | none => .ub
    | some baseVal =>
      let code := bits >>> (32 - (codeLen + 1))
      let codeLen2 := codeLen + 1
      if codeLen2 > 32 then .err
      else if baseVal > code then baseScan baseTable bits codeLen2 fuel
      else
        match baseTable.get? (1 + (codeLen2 - 1) * 2) with
        | none => .ub
        | some b => .ok ((b + 2 ^ 32 - bits >>> (32 - codeLen2)) % 2 ^ 32, codeLen2)

/-- A pending call in the mutually recursive pair
`DecodeOne`/`Decompress`: `DecodeOne` decodes one symbol, `Decompress`
enters the decode loop on a fresh bit reader, and `loop` is an iteration of
that loop.  Encoding the mutual recursion as one structural recursion on
fuel keeps the model computable by kernel reduction. -/
inductive HuffCall where
  | decodeOne (code dstLeft : Nat)
  | decompress (src : List Nat) (dstSize : Nat)
  | loop (src : List Nat) (bitPos bitsConsumed : Nat) (acc : List Nat) (dstLeft : Nat)

/-- `HuffDicDecompressor::DecodeOne` (MobiBook.cpp lines 317-356) and
`HuffDicDecompressor::Decompress` (lines 358-413) in one fuel-indexed
recursion; each returns the bytes the call appends at `dst` (the C++
`Decompress` returns their count, `dstSize - dstLeft`).

`DecodeOne`'s release-mode checks are transcribed exactly as written:
`dict > dictsCount` (not `≥`) and `offset > dictSize[dict]` (not `≥`); a
`dict` equal to `dictsCount` reads the uninitialised `dicts[dictsCount]`
slot, which is `Res.ub`.  Shifting `code` by `code_length ≥ 32` and
computing `1 << code_length` for `code_length ≥ 31` overflow in C++ and
are `Res.ub` as well.

The loop state is the bit cursor, the bits consumed by the previous
iteration, the bytes written so far and the space left.  (The C++ also
keeps the previous `bits` peek, used only in a post-loop diagnostic print
that does not affect the result.) -/
def huffRun (st : HuffState) : Nat → HuffCall → Res (List Nat)
  | 0, _ => .ub
  | fuel + 1, .decodeOne code dstLeft =>
    if st.codeLength ≥ 32 then .ub
    else
      let dict := (code >>> st.codeLength) % 65536
      if dict > st.dicts.length then .err
      else if st.codeLength = 31 then .ub
      else
        let code2 := code &&& (2 ^ st.codeLength - 1)
        match st.dicts.get? dict with
        | none => .ub
        | some d =>
          match ReadBeU16 d (code2 * 2) with
          | .err => .err
          | .ub => .ub
          | .ok offset =>
            if offset > d.length then .err
            else
              match ReadBeU16 d offset with
              | .err => .err
              | .ub => .ub
              | .ok symLen =>
                if symLen &&& 32768 = 0 then
                  if offset + 2 + symLen ≤ d.length then
                    huffRun st fuel (.decompress ((d.drop (offset + 2)).take symLen) dstLeft)
                  else .ub
                else
                  let sl := symLen &&& 32767
                  if sl > 127 then .err
                  else if sl > dstLeft then .err
                  else if offset + 2 + sl ≤ d.length then
                    .ok ((d.drop (offset + 2)).take sl)
                  else .ub
  | fuel + 1, .decompress src dstSize => huffRun st fuel (.loop src 0 0 [] dstSize)
  | fuel + 1, .loop src bitPos bitsConsumed acc dstLeft =>
    let total := 8 * src.length
    if bitsConsumed > total - bitPos then .err
    else
      let bitPos2 := bitPos + bitsConsumed
      if total - bitPos2 = 0 then .ok acc
      else
        let bits2 := peek32 src bitPos2
        if total - bitPos2 < 8 ∧ bits2 = 0 then .ok acc
        else
          match st.cacheTable.get? (bits2 >>> 24) with
          | none => .ub
          | some v =>
            let codeLen := v &&& 31
            if codeLen = 0 then .err
            else
              let codeRes : Res (Nat × Nat) :=
                if v &&& 128 ≠ 0 then
                  .ok (((v >>> 8) + 2 ^ 32 - bits2 >>> (32 - codeLen)) % 2 ^ 32, codeLen)
                else baseScan st.baseTable bits2 (codeLen - 1) 34
              match codeRes with
              | .err => .err
              | .ub => .ub
              | .ok (code, codeLen2) =>
                match huffRun st fuel (.decodeOne code dstLeft) with
                | .err => .err
                | .ub => .ub
                | .ok out =>
                  huffRun st fuel (.loop src bitPos2 codeLen2 (acc ++ out) (dstLeft - out.length))

/-- `HuffDicDecompressor::DecodeOne`, see `huffRun`. -/
def DecodeOne (st : HuffState) (fuel : Nat) (code : Nat) (dstLeft : Nat) :
    Res (List Nat) :=
  huffRun st fuel (.decodeOne code dstLeft)

/-- `HuffDicDecompressor::Decompress`, see `huffRun`. -/
def Decompress (st : HuffState) (fuel : Nat) (src : List Nat) (dstSize : Nat) :
    Res (List Nat) :=
  huffRun st fuel (.decompress src dstSize)

/-- `HuffDicDecompressor::SetHuffData` (MobiBook.cpp lines 415-451).
On success the model returns the byte-swapped cache table (256 entries at
`cacheOffset`) and base table (64 entries at `baseTableOffset`).
The tag test is transcribed exactly as written:
`if (!strncmp("HUFF", huffHdr->id, 4)) return false;` — `strncmp` returns 0
on equality, so a record that does begin with `"HUFF"` is rejected and any
other tag passes. -/
def SetHuffData (huffData : List Nat) : Res (List Nat × List Nat) :=
  if huffData.length < 24 + 1024 + 256 then .err
  else
    let hdrLen := beU32D huffData 4
    let cacheOffset := beU32D huffData 8
    let baseTableOffset := beU32D huffData 12
    if huffData.take 4 = [72, 85, 70, 70] then .err
    else if hdrLen ≠ 24 then .err
    else if cacheOffset ≠ 24 then .err
    else if baseTableOffset ≠ cacheOffset + 1024 then .err
    else
      .ok ((List.range 256).map (fun i => beU32D huffData (cacheOffset + 4 * i)),
        (List.range 64).map (fun i => beU32D huffData (baseTableOffset + 4 * i)))

/-- `HuffDicDecompressor::AddCdicData` (MobiBook.cpp lines 453-476).
Returns the new `code_length` (overwritten from the record even though the
matching `assert` is a no-op) and the stored dictionary slice.  The tag
test is transcribed exactly as written:
`if (!strncmp("CDIC", cdicHdr->id, 4)) return false;` — a record beginning
with `"CDIC"` is rejected and any other tag passes.  Reading the header of
a record shorter than 16 bytes is out of bounds, and `1 << code_length`
overflows `int` for `code_length ≥ 31`. -/
def AddCdicData (cdicData : List Nat) : Res (Nat × List Nat) :=
  if cdicData.length < 16 then .ub
  else
    let hdrLen := beU32D cdicData 4
    let codeLen := beU32D cdicData 12
    if cdicData.take 4 = [67, 68, 73, 67] then .err
    else if hdrLen ≠ 16 then .err
    else
      let size := cdicData.length - hdrLen
      if codeLen ≥ 31 then .ub
      else if 2 ^ codeLen ≥ size then .err
      else .ok (codeLen, cdicData.drop hdrLen)

/-- A `HuffDicDecompressor` state with exactly one dictionary (600 bytes of
zeros) and `code_length = 8`; the tables are irrelevant to `DecodeOne`'s
entry checks. -/
def huffOneDict : HuffState :=
  { cacheTable := List.replicate 256 0, baseTable := List.replicate 64 0,
    codeLength := 8, dicts := [List.replicate 600 0] }

/-- A one-dictionary state whose offset entry for code 0 is 300, exactly
the dictionary's size: one past its last byte. -/
def huffEdgeDict : HuffState :=
  { cacheTable := List.replicate 256 0, baseTable := List.replicate 64 0,
    codeLength := 8, dicts := [[1, 44] ++ List.replicate 298 0] }

set_option maxRecDepth 8000 in
/-- C3, evaluated at the failing inputs.  With one dictionary
(`dictsCount = 1`) and `code_length = 8`, the code 256 gives
`dict = 1 = dictsCount`: the check `dict > dictsCount` does not fire and
`DecodeOne` reads the out-of-bounds `dicts[1]` (`Res.ub`) instead of
failing fatally as the claim requires; only `dict = 2 > dictsCount` is
rejected.  Likewise a per-symbol offset equal to the dictionary size —
pointing one past its end — passes `offset > dictSize` and the symbol
length is read out of bounds. -/
theorem c3_dict_bound_off_by_one :
    DecodeOne huffOneDict 5 256 100 = .ub ∧
    DecodeOne huffOneDict 5 512 100 = .err ∧
    DecodeOne huffEdgeDict 5 0 100 = .ub := by
  refine ⟨by decide, by decide, by decide⟩

/-- A correctly tagged HUFF record: `"HUFF"`, `hdrLen = 24`,
`cacheOffset = 24`, `baseTableOffset = 1048`, total length 1304. -/
def hufGoodRec : List Nat :=
  [72, 85, 70, 70, 0, 0, 0, 24, 0, 0, 0, 24, 0, 0, 4, 24] ++ List.replicate 1288 0

/-- The same record with the tag corrupted to `"XUFF"`. -/
def hufBadTagRec : List Nat :=
  [88, 85, 70, 70, 0, 0, 0, 24, 0, 0, 0, 24, 0, 0, 4, 24] ++ List.replicate 1288 0

/-- A correctly tagged CDIC record: `"CDIC"`, `hdrLen = 16`, `codeLen = 8`,
257 payload bytes (so `size = 257 > 256 = 1 << codeLen`). -/
def cdicGoodRec : List Nat :=
  [67, 68, 73, 67, 0, 0, 0, 16, 0, 0, 0, 0, 0, 0, 0, 8] ++ List.replicate 257 0

/-- The same record with the tag corrupted to `"XDIC"`. -/
def cdicBadTagRec : List Nat :=
  [88, 68, 73, 67, 0, 0, 0, 16, 0, 0, 0, 0, 0, 0, 0, 8] ++ List.replicate 257 0

set_option maxRecDepth 8000 in
/-- C4, evaluated at the failing inputs.  Both tag tests are inverted
(`if (!strncmp(tag, id, 4)) return false;` fails exactly when the tag
matches): `SetHuffData` rejects a well-formed record that begins with
`"HUFF"` and declares header length 24, and accepts the identical record
tagged `"XUFF"`; `AddCdicData` rejects a well-formed `"CDIC"` record with
its declared 16-byte header and accepts the identical record tagged
`"XDIC"`. -/
theorem c4_tag_checks_inverted :
    SetHuffData hufGoodRec = .err ∧
    (SetHuffData hufBadTagRec).isOk = true ∧
    AddCdicData cdicGoodRec = .err ∧
    (AddCdicData cdicBadTagRec).isOk = true := by
  refine ⟨by decide, rfl, by decide, rfl⟩

/-! ## EXTH metadata dispatch (`MobiBook::parseHeader`, MobiBook.cpp lines 669-708) -/

/-- The metadata the EXTH loop accumulates. -/
structure ExthAcc where
  author : List Nat
  publisher : List Nat
  title : List Nat
  coverImage : Int
deriving DecidableEq, Repr

/-- `std::string::append(const char*)` / assignment from `(char*) &rec->data`:
reads bytes from `pos` up to, and not including, the first NUL.  The byte
count `len - 8` of the payload plays no part; the read runs past the end of
the record and, when no NUL occurs at all before the end of the buffer,
past the buffer (`Res.ub`). -/
def cstrFrom (buf : List Nat) (pos : Nat) : Res (List Nat) :=
  let tail := buf.drop pos
  if tail.all (fun b => b ≠ 0) then .ub
  else .ok (tail.takeWhile (fun b => b ≠ 0))

/-- Big-endian 32-bit read returning `Res.ub` when any of the four bytes is
outside the buffer. -/
def beU32R (buf : List Nat) (i : Nat) : Res Nat :=
  match buf.get? i, buf.get? (i + 1), buf.get? (i + 2), buf.get? (i + 3) with
  | some a, some b, some c, some d => .ok (a * 16777216 + b * 65536 + c * 256 + d)
  | _, _, _, _ => .ub

/-- The `for (i = 0; i < eh->recCount; ++i)` EXTH loop over the flat buffer
`buf` (starting just after the 12-byte EXTH header): each iteration reads
`type` and `len` (big-endian) at the cursor, dispatches on `type`
(100 author append, 101 publisher append, 201 cover index, 503 title
replace, anything else skipped), then advances the cursor by exactly
`len`.  Record 201's cover index is the value of the 8-byte `data` pointer
field truncated to `uint32` and byte-swapped, which on this little-endian
64-bit host is the big-endian value of payload bytes 0..3; it is then
assigned to the `int` member `coverImage`. -/
def parseExthRecords (buf : List Nat) : Nat → Nat → ExthAcc → Res ExthAcc
  | _, 0, acc => .ok acc
  | pos, k + 1, acc =>
    match beU32R buf pos, beU32R buf (pos + 4) with
    | .ok ty, .ok len =>
      let step : Res ExthAcc :=
        if ty = 100 then
          match cstrFrom buf (pos + 8) with
          | .ok s => .ok { acc with author := acc.author ++ s }
          | .err => .err
          | .ub => .ub
        else if ty = 101 then
          match cstrFrom buf (pos + 8) with
          | .ok s => .ok { acc with publisher := acc.publisher ++ s }
          | .err => .err
          | .ub => .ub
        else if ty = 201 then
          match beU32R buf (pos + 8) with
          | .ok v =>
            .ok { acc with coverImage := if v < 2 ^ 31 then (v : Int) else (v : Int) - 2 ^ 32 }
          | .err => .err
          | .ub => .ub
        else if ty = 503 then
          match cstrFrom buf (pos + 8) with
          | .ok s => .ok { acc with title := s }
          | .err => .err
          | .ub => .ub
        else .ok acc
      match step with
      | .ok acc2 => parseExthRecords buf (pos + len) k acc2
      | .err => .err
      | .ub => .ub
    | _, _ => .ub

/-- The accumulator as `parseHeader` has it when it reaches the EXTH table:
`coverImage` was initialised to `-1` by the constructor and `title` to the
full-name range (left abstract here). -/
def exthInit (title0 : List Nat) : ExthAcc :=
  { author := [], publisher := [], title := title0, coverImage := -1 }

/-- A single EXTH record of type 100 (author), `len = 12`, whose 4-byte
payload `"A\x00BC"` contains an embedded NUL. -/
def exthRec100 : List Nat := [0, 0, 0, 100, 0, 0, 0, 12, 65, 0, 66, 67]

/-- C8, evaluated at the failing input.  A type-100 record with payload
bytes `[65, 0, 66, 67]` (`len - 8 = 4` bytes) contributes only `[65]` to
the author: the C-string append stops at the embedded NUL instead of
copying exactly `len - 8` bytes.  The other parts of the claim hold and
are also evaluated: two type-503 records leave the later title (last
writer wins), an unknown type leaves the accumulator untouched, and the
cursor advances by exactly `len` so the following record is still
dispatched. -/
theorem c8_exth_cstring_truncation :
    parseExthRecords exthRec100 0 1 (exthInit []) =
      .ok { author := [65], publisher := [], title := [], coverImage := -1 } ∧
    ([65] : List Nat) ≠ [65, 0, 66, 67] ∧
    parseExthRecords
      [0, 0, 1, 247, 0, 0, 0, 12, 84, 49, 0, 0,
       0, 0, 1, 247, 0, 0, 0, 12, 84, 50, 0, 0] 0 2 (exthInit []) =
      .ok { author := [], publisher := [], title := [84, 50], coverImage := -1 } ∧
    parseExthRecords
      [0, 0, 3, 231, 0, 0, 0, 12, 9, 9, 9, 9,
       0, 0, 0, 100, 0, 0, 0, 12, 74, 68, 0, 0] 0 2 (exthInit []) =
      .ok { author := [74, 68], publisher := [], title := [], coverImage := -1 } := by
  refine ⟨by decide, by decide, by decide, by decide⟩

/-! ## Images and cover (`MobiBook` image handling, MobiBook.cpp lines 746-862) -/

/-- A loaded image slot: its copied bytes and detected extension. -/
abbrev Img := List Nat × String

/-- `GetUpToFour` (MobiBook.cpp lines 746-756): big-endian accumulation of
the first byte and then up to three more while bytes remain.  Its callers
only reach it with a non-empty record; the empty case returns 0 here. -/
def GetUpToFour (data : List Nat) : Nat :=
  match data with
  | [] => 0
  | b :: rest => (rest.take 3).foldl (fun v x => v * 256 + x) b

/-- `IsEofRecord`: exactly four bytes forming `0xE98E0D0A`. -/
def IsEofRecord (data : List Nat) : Bool :=
  data.length = 4 && GetUpToFour data = 0xe98e0d0a

/-- `KnownNonImageRec`: first up-to-four bytes form one of the known
non-image signatures. -/
def KnownNonImageRec (data : List Nat) : Bool :=
  let sig := GetUpToFour data
  sig = 0x464c4953 || sig = 0x46434953 || sig = 0x46445354 ||
    sig = 0x44415450 || sig = 0x53524353 || sig = 0x56494445

/-- `ImageType`: extension from the magic bytes (`strncmp` against the
four-byte magics). -/
def ImageType (data : List Nat) : String :=
  if data.take 4 = [0xff, 0xd8, 0xff, 0xe0] then ".jpg"
  else if data.take 4 = [0x89, 80, 78, 71] then ".png"
  else if data.take 4 = [71, 73, 70, 56] then ".gif"
  else ".bin"

/-- `MobiBook::loadImage` (MobiBook.cpp lines 792-811) for one slot, on the
record bytes (`none` = `readRecord` failed).  Returns
(keep going, loaded slot): a failed read or empty record leaves the slot
empty and continues; the EOF marker stops image loading; known non-image
records leave the slot empty and continue; anything else is stored with
its detected type. -/
def loadImage (rec : Option (List Nat)) : Bool × Option Img :=
  match rec with
  | none => (true, none)
  | some d =>
    if d.length = 0 then (true, none)
    else if IsEofRecord d then (false, none)
    else if KnownNonImageRec d then (true, none)
    else (true, some (d, ImageType d))

/-- `MobiBook::loadImages` (MobiBook.cpp lines 813-822) over the records at
`imageFirstRec .. imageFirstRec + imagesCount - 1`: the slot array is
calloc-zeroed, so when `loadImage` stops the loop the remaining slots stay
empty. -/
def loadImages (recs : List (Option (List Nat))) : List (Option Img) :=
  match recs with
  | [] => []
  | r :: rest =>
    match loadImage r with
    | (false, s) => s :: rest.map (fun _ => none)
    | (true, s) => s :: loadImages rest

/-- `MobiBook::getImage` (MobiBook.cpp lines 828-836): 1-based `recindex`,
`NULL` for out-of-range indices and empty or zero-length slots. -/
def getImage (images : List (Option Img)) (imgRecIndex : Nat) : Option Img :=
  if imgRecIndex > images.length ∨ imgRecIndex < 1 then none
  else
    match images.get? (imgRecIndex - 1) with
    | some (some im) => if im.1.length = 0 then none else some im
    | some none => none
    | none => none

/-- What `getCover` evaluates to: the C++ returns an `ImageData*` — `NULL`,
or a pointer to a slot (which may itself be an empty slot); indexing
outside the array is an out-of-bounds access. -/
inductive CoverRes where
  | nullPtr
  | slotPtr (s : Option Img)
  | ub
deriving DecidableEq, Repr

/-- `MobiBook::getCover` (MobiBook.cpp lines 840-862).  When an EXTH 201
record set `coverImage ≥ 0` the slot at that index is returned with no
validation at all.  Otherwise the loop over the first
`min(imagesCount, 2)` slots picks the loaded slot of strictly greatest
length; `NULL` when none is loaded. -/
def getCover (images : List (Option Img)) (coverImage : Int) : CoverRes :=
  if 0 ≤ coverImage then
    match images.get? coverImage.toNat with
    | some s => .slotPtr s
    | none => .ub
  else
    let pick := (List.range (min images.length 2)).foldl
      (fun (acc : Nat × Nat) i =>
        match images.get? i with
        | some (some im) => if im.1.length > acc.2 then (i, im.1.length) else acc
        | _ => acc) (0, 0)
    if pick.2 = 0 then .nullPtr
    else
      match images.get? pick.1 with
      | some s => .slotPtr s
      | none => .ub

/-- The byte length of the image loaded at slot `i`, 0 when the slot is
missing or empty. -/
def imgLen (images : List (Option Img)) (i : Nat) : Nat :=
  match images.get? i with
  | some (some im) => im.1.length
  | _ => 0

/-- Follows the spec's words for `getCover`'s fallback: the cover is the
larger of the first two loaded images (by byte length), the first on a
tie, and there is no cover when neither exists. -/
def coverFallbackSpec (images : List (Option Img)) : CoverRes :=
  if imgLen images 0 = 0 ∧ imgLen images 1 = 0 then .nullPtr
  else if imgLen images 1 > imgLen images 0 then
    match images.get? 1 with
    | some s => .slotPtr s
    | none => .ub
  else
    match images.get? 0 with
    | some s => .slotPtr s
    | none => .ub

/-- Counterexample to C7.  With one image slot, left empty (say the record
was a `FLIS` marker), and an EXTH 201 cover index of 0, the claim says the
fallback applies and, no image being loaded, nothing is returned; the code
returns the pointer `&images[0]` to the empty slot unconditionally —
`coverImage >= 0` is the only test. -/
theorem c7_counterexample :
    getCover [Option.none] 0 = .slotPtr Option.none ∧
    getCover [Option.none] 0 ≠ .nullPtr := by
  refine ⟨by decide, by decide⟩

/-- C7 (amended).  If an EXTH 201 record supplied a nonnegative cover
index, `getCover` returns the slot at that index with no validation: an
empty slot is returned as a (non-`NULL`) pointer and an index at or past
`imagesCount` is an out-of-bounds access.  Only when no such record was
seen (`coverImage < 0`) does it fall back to the larger by byte length of
the first two loaded images, returning `NULL` when neither exists. -/
theorem c7_cover_selection :
    (∀ images (ci : Int) s, 0 ≤ ci → images.get? ci.toNat = some s →
      getCover images ci = .slotPtr s) ∧
    (∀ images (ci : Int), 0 ≤ ci → images.get? ci.toNat = none →
      getCover images ci = .ub) ∧
    (∀ images (ci : Int), ci < 0 → getCover images ci = coverFallbackSpec images) := by
  refine ⟨?_, ?_, ?_⟩
  · intro images ci s hci hget
    have hget2 : images[ci.toNat]? = some s := by simpa using hget
    simp [getCover, hci, hget2]
  · intro images ci hci hget
    have hget2 : images[ci.toNat]? = none := by simpa using hget
    simp [getCover, hci, hget2]
  · intro images ci hci
    have hneg : ¬ (0 ≤ ci) := by omega
    match images with
    | [] => simp [getCover, coverFallbackSpec, imgLen, hneg]
    | [a] =>
      simp only [getCover, if_neg hneg]
      have hr : List.range (min [a].length 2) = [0] := rfl
      rw [hr]
      simp only [List.foldl_cons, List.foldl_nil]
      rcases a with _ | im
      · simp [coverFallbackSpec, imgLen]
      · by_cases hl : im.1.length = 0
        · simp [coverFallbackSpec, imgLen, hl]
        · simp [coverFallbackSpec, imgLen, hl, Nat.pos_of_ne_zero hl]
    | a :: b :: rest =>
      have hmin : min (a :: b :: rest).length 2 = 2 := by
        simp only [List.length_cons]; omega
      simp only [getCover, if_neg hneg, hmin]
      have hr : List.range 2 = [0, 1] := by decide
      rw [hr]
      simp only [List.foldl_cons, List.foldl_nil]
      rcases a with _ | im
      · rcases b with _ | im2
        · simp [coverFallbackSpec, imgLen]
        · by_cases h2 : im2.1.length = 0
          · simp [coverFallbackSpec, imgLen, h2]
          · simp [coverFallbackSpec, imgLen, h2, Nat.pos_of_ne_zero h2]
      · rcases b with _ | im2
        · by_cases h1 : im.1.length = 0
          · simp [coverFallbackSpec, imgLen, h1]
          · simp [coverFallbackSpec, imgLen, h1, Nat.pos_of_ne_zero h1]
        · by_cases h1 : im.1.length = 0
          · by_cases h2 : im2.1.length = 0
            · simp [coverFallbackSpec, imgLen, h1, h2]
            · simp [coverFallbackSpec, imgLen, h1, h2, Nat.pos_of_ne_zero h2]
          · by_cases h21 : im2.1.length > im.1.length
            · have h2 : im2.1.length ≠ 0 := by omega
              simp [coverFallbackSpec, imgLen, h1, h2, h21, Nat.pos_of_ne_zero h1]
            · simp [coverFallbackSpec, imgLen, h1, h21, Nat.pos_of_ne_zero h1]

/-- Witness for C7's amended theorem: a direct EXTH-201 hit, and the
fallback picking the larger of two loaded images. -/
theorem c7_cover_selection_witness :
    getCover [some ([1, 2, 3], ".jpg")] 0 = .slotPtr (some ([1, 2, 3], ".jpg")) ∧
    getCover [some ([1], ".jpg"), some ([2, 2], ".gif")] (-1) =
      coverFallbackSpec [some ([1], ".jpg"), some ([2, 2], ".gif")] := by
  refine ⟨c7_cover_selection.1 [some ([1, 2, 3], ".jpg")] 0 (some ([1, 2, 3], ".jpg"))
      (by decide) rfl,
    c7_cover_selection.2.2 [some ([1], ".jpg"), some ([2, 2], ".gif")] (-1) (by decide)⟩

/-- C9.  The `recindex` round-trip and the `NULL` cases of `getImage`: an
image loaded at 0-based slot `i` is returned by `getImage (i+1)`; index 0
and indices above `imagesCount` give nothing; an in-range empty slot gives
nothing.  The last conjunct discharges the "loaded" hypothesis: `loadImage`
never stores an empty byte list in a slot. -/
theorem c9_recindex_roundtrip :
    (∀ images i im, images.get? i = some (some im) → im.1 ≠ [] →
      getImage images (i + 1) = some im) ∧
    (∀ images, getImage images 0 = none) ∧
    (∀ images idx, idx > images.length → getImage images idx = none) ∧
    (∀ images idx, 1 ≤ idx → idx ≤ images.length →
      images.get? (idx - 1) = some none → getImage images idx = none) ∧
    (∀ r b im, loadImage r = (b, some im) → im.1 ≠ []) := by
  refine ⟨?_, ?_, ?_, ?_, ?_⟩
  · intro images i im hget hne
    have hlt : i < images.length := by
      by_contra h
      rw [List.get?_eq_none.mpr (by omega)] at hget
      cases hget
    have hcond : ¬ (i + 1 > images.length ∨ i + 1 < 1) := by omega
    have hlen : ¬ (im.1.length = 0) := by
      intro h
      exact hne (List.length_eq_zero.mp h)
    simp only [getImage, hcond, if_false, Nat.add_sub_cancel, hget, hlen]
  · intro images
    simp [getImage]
  · intro images idx h
    simp [getImage, h]
  · intro images idx h1 h2 hget
    have hcond : ¬ (idx > images.length ∨ idx < 1) := by omega
    simp only [getImage, hcond, if_false, hget]
  · intro r b im h
    match r with
    | none => simp [loadImage] at h
    | some d =>
      simp only [loadImage] at h
      split_ifs at h with hz he hk
      · simp at h
      · simp at h
      · simp at h
      · simp only [Prod.mk.injEq, Option.some.injEq] at h
        obtain ⟨hb, him⟩ := h
        subst him
        intro hnil
        replace hnil : d = [] := hnil
        exact hz (by rw [hnil]; rfl)

/-- Witness for C9 at a concrete image table. -/
theorem c9_recindex_roundtrip_witness :
    getImage [some ([5], ".bin"), Option.none] 1 = some ([5], ".bin") ∧
    getImage [some ([5], ".bin"), Option.none] 2 = none := by
  refine ⟨c9_recindex_roundtrip.1 [some ([5], ".bin"), Option.none] 0 ([5], ".bin")
      rfl (by decide),
    c9_recindex_roundtrip.2.2.2.1 [some ([5], ".bin"), Option.none] 2
      (by decide) (by decide) rfl⟩

/-- C10.  A failed record read (`none`) or a zero-length record leaves its
image slot empty while loading continues with the subsequent slots, and
`loadImages` always produces a slot per record — it has no failure outcome,
so `parseHeader` returns success regardless of such slots (it calls
`loadImages()` and then returns `true`). -/
theorem c10_failed_image_read_skipped :
    (∀ rest, loadImages (Option.none :: rest) = Option.none :: loadImages rest) ∧
    (∀ rest, loadImages (some [] :: rest) = Option.none :: loadImages rest) ∧
    (∀ recs, (loadImages recs).length = recs.length) := by
  refine ⟨?_, ?_, ?_⟩
  · intro rest
    simp [loadImages, loadImage]
  · intro rest
    simp [loadImages, loadImage]
  · intro recs
    induction recs with
    | nil => simp [loadImages]
    | cons r rest ih =>
      cases hr : loadImage r with
      | mk b s =>
        cases b
        · simp [loadImages, hr]
        · simp [loadImages, hr, ih]

/-! ## Body assembly (`loadDocRecordIntoBuffer` / `loadDocument`,
MobiBook.cpp lines 934-1000) -/

/-- The fields of `MobiBook` that `loadDocument` consults, as
`parseHeader` left them.  `records` abstracts `readRecord(recNo)` (the PDB
record table plus the file reads): entry `recNo` is `none` when the read
fails.  `parseHeader` itself places no constraint tying
`docUncompressedSize` — copied verbatim from the PalmDOC header — to the
record contents. -/
structure MBState where
  records : List (Option (List Nat))
  docRecCount : Nat
  compressionType : Nat
  docUncompressedSize : Nat
  trailersCount : Nat
  multibyte : Bool
  huffDic : Option HuffState

/-- `MobiBook::readRecord`. -/
def readRecord (st : MBState) (recNo : Nat) : Option (List Nat) :=
  (st.records.get? recNo).bind id

/-- `MobiBook::loadDocRecordIntoBuffer` (MobiBook.cpp lines 934-974):
returns the bytes appended to `strOut`.  `recSize -= extraSize` is
`size_t` arithmetic, so a wrapped `recSize` beyond the record's actual
length makes the append or the decompressor read out of bounds.  The
decompressors write into `char buf[6000]`; an unknown compression type
falls through `assert(0)` to `return false`. -/
def loadDocRecordIntoBuffer (st : MBState) (fuel : Nat) (recNo : Nat) : Res (List Nat) :=
  match readRecord st recNo with
  | none => .err
  | some recData =>
    match ExtraDataSize recData recData.length st.trailersCount st.multibyte with
    | .err => .err
    | .ub => .ub
    | .ok extra =>
      let recSize := (recData.length + W64 - extra) % W64
      if st.compressionType = 1 then
        if recSize ≤ recData.length then .ok (recData.take recSize) else .ub
      else if st.compressionType = 2 then
        if recSize ≤ recData.length then PalmdocUncompress (recData.take recSize) 6000
        else .ub
      else if st.compressionType = 17480 then
        match st.huffDic with
        | none => .err
        | some hd =>
          if recSize ≤ recData.length then Decompress hd fuel (recData.take recSize) 6000
          else .ub
      else .err

/-- The `for (i = 1; i <= docRecCount; i++)` loop of
`MobiBook::loadDocument`: appends each record's output to `doc` in order,
failing as soon as one record fails. -/
def loadDocRecords (st : MBState) (fuel : Nat) : Nat → Nat → Res (List Nat)
  | _, 0 => .ok []
  | i, k + 1 =>
    match loadDocRecordIntoBuffer st fuel i with
    | .err => .err
    | .ub => .ub
    | .ok out =>
      match loadDocRecords st fuel (i + 1) k with
      | .ok rest => .ok (out ++ rest)
      | .err => .err
      | .ub => .ub

/-- `MobiBook::loadDocument` (MobiBook.cpp lines 981-1000): the loop over
records `1..docRecCount`.  The final
`assert(docUncompressedSize == doc.length())` is a no-op; nothing compares
the assembled length with the declared size before returning `true`. -/
def loadDocument (st : MBState) (fuel : Nat) : Res (List Nat) :=
  loadDocRecords st fuel 1 st.docRecCount

/-- A parsed book state whose PalmDOC header declared
`uncompressedDocSize = 5` while its single body record holds 3 bytes:
`parseHeader` accepts such a file (the header fields are independent of
the record contents). -/
def c1State : MBState :=
  { records := [some [], some [97, 98, 99]], docRecCount := 1, compressionType := 1,
    docUncompressedSize := 5, trailersCount := 0, multibyte := false, huffDic := none }

/-- Counterexample to C1.  `loadDocument` succeeds with a 3-byte body while
the header declared `uncompressedDocSize = 5`: the equality of the body
length with `uncompressedDocSize` is only asserted, never enforced, so
`open()` succeeds with a body of a different length. -/
theorem c1_counterexample :
    loadDocument c1State 1 = .ok [97, 98, 99] ∧
    c1State.docUncompressedSize = 5 ∧
    ([97, 98, 99] : List Nat).length ≠ 5 := by
  refine ⟨by decide, rfl, by decide⟩

/-- The concatenation, in record order, of the raw payloads of records
`i .. i+k-1`, following the spec's description of body assembly. -/
def recordConcat (st : MBState) : Nat → Nat → List Nat
  | _, 0 => []
  | i, k + 1 => (readRecord st i).getD [] ++ recordConcat st (i + 1) k

/-- C1 (amended).  For an uncompressed book with no trailers, a successful
`loadDocument` yields exactly the concatenation, in order, of the payloads
of records `1..docRecCount`; the body length is whatever that concatenation
has — it is not checked against `uncompressedDocSize`. -/
theorem c1_uncompressed_body_concat :
    ∀ k st fuel i, st.compressionType = 1 → st.trailersCount = 0 →
      st.multibyte = false →
      (∀ j, i ≤ j → j < i + k → ∃ r, readRecord st j = some r ∧ r.length < W64) →
      loadDocRecords st fuel i k = .ok (recordConcat st i k) := by
  intro k
  induction k with
  | zero => intro st fuel i _ _ _ _; rfl
  | succ k ih =>
    intro st fuel i hcomp htr hmb hrec
    obtain ⟨r, hr, hrW⟩ := hrec i (Nat.le_refl i) (by omega)
    have hextra : ExtraDataSize r r.length st.trailersCount st.multibyte = .ok 0 := by
      rw [htr, hmb]
      have h : r.length + W64 - r.length = W64 := by omega
      simp [ExtraDataSize, stripTrailers, h]
    have hsize : (r.length + W64 - 0) % W64 = r.length := by
      rw [Nat.sub_zero, Nat.add_mod_right, Nat.mod_eq_of_lt hrW]
    have hload : loadDocRecordIntoBuffer st fuel i = .ok r := by
      simp only [loadDocRecordIntoBuffer, hr, hextra, hsize, hcomp]
      simp
    simp only [loadDocRecords, hload]
    rw [ih st fuel (i + 1) hcomp htr hmb
      (fun j hj1 hj2 => hrec j (by omega) (by omega))]
    simp [recordConcat, hr]

/-- A well-formed two-record uncompressed book for the C1 witness. -/
def c1WitnessState : MBState :=
  { records := [some [], some [10, 20], some [30]], docRecCount := 2,
    compressionType := 1, docUncompressedSize := 3, trailersCount := 0,
    multibyte := false, huffDic := none }

/-- Witness for C1's amended theorem. -/
theorem c1_uncompressed_body_concat_witness :
    loadDocument c1WitnessState 1 = .ok (recordConcat c1WitnessState 1 2) :=
  c1_uncompressed_body_concat 2 c1WitnessState 1 1 rfl rfl rfl (fun j hj1 hj2 => by
    interval_cases j
    · exact ⟨[10, 20], rfl, by norm_num [W64]⟩
    · exact ⟨[30], rfl, by norm_num [W64]⟩)

end MobiBook
